import Mathlib

/-!
Verification of `src/petunia/mkIcmp.py`.

The script scrapes the `iptables` help text for ICMP type and code names,
probes `iptables` for the numeric values of each name, and prints two
Python mapping initialisations to standard output.

The embedding below models Python strings as `List Char` (`Chars`), the
external `iptables -nL FORWARD` output after probing a name as an abstract
function `listing : Chars → Chars` (the subprocess invocations in
`extractType` / `extractCode` only influence the run through that text),
standard output as the list of lines written (each `sys.stdout.write` in
the script writes exactly one `\n`-terminated line, and every write occurs
after the parse/resolve loop has finished), and an uncaught Python
exception as an `Except.error` value.  Python `str` unicode subtleties are
modelled for the ASCII / Latin-1 range that the scraped text lives in.
-/

set_option maxRecDepth 4000

/-- Python strings, modelled as lists of characters. -/
abbrev Chars := List Char

deriving instance DecidableEq for Except

/-- Characters that `str.splitlines` treats as line boundaries. -/
def isLineBreak (c : Char) : Bool :=
  c = '\n' || c = '\r' || c = '\x0b' || c = '\x0c' ||
  c = '\x1c' || c = '\x1d' || c = '\x1e' || c = '\x85' ||
  c = '\u2028' || c = '\u2029'

/-- Characters that `str.strip()` (no argument) removes; every line-break
character is whitespace, plus space, tab and the other Latin-1 blanks. -/
def isPySpace (c : Char) : Bool :=
  isLineBreak c || c = ' ' || c = '\t' || c = '\x1f' || c = '\xa0'

/-- Python `s.lstrip()`. -/
def pyLstrip (s : Chars) : Chars := s.dropWhile isPySpace

/-- Helper for `s.strip()`: remove trailing whitespace, recursing from the
front so that proofs about the head of the result are direct. -/
def pyRstrip : Chars → Chars
  | [] => []
  | c :: r =>
    match pyRstrip r with
    | [] => if isPySpace c then [] else [c]
    | r' => c :: r'

/-- Python `s.strip()`. -/
def pyStrip (s : Chars) : Chars := pyRstrip (pyLstrip s)

/-- Worker for `str.splitlines(False)`: `acc` holds the reversed current
line.  A line break always terminates a (possibly empty) line; trailing
text after the last break forms a final line only when it is nonempty. -/
def splitlinesAux : Chars → Chars → List Chars
  | [], acc => if acc.isEmpty then [] else [acc.reverse]
  | c :: r, acc =>
    if isLineBreak c then
      match r with
      | [] => [acc.reverse]
      | r1 :: rs =>
        if c = '\r' ∧ r1 = '\n' then acc.reverse :: splitlinesAux rs []
        else acc.reverse :: splitlinesAux (r1 :: rs) []
    else splitlinesAux r (c :: acc)

/-- Python `s.splitlines(False)`. -/
def pySplitlines (s : Chars) : List Chars := splitlinesAux s []

/-- Worker for Python `str.find`: index of the first match at or after the
current position, `-1` if none. -/
def pyFindAux (hay sub : Chars) (i : Nat) : Int :=
  if sub.isPrefixOf hay then Int.ofNat i
  else
    match hay with
    | [] => -1
    | _ :: t => pyFindAux t sub (i + 1)

/-- Python `s.find(sub)`. -/
def pyFind (hay sub : Chars) : Int := pyFindAux hay sub 0

/-- Normalise a Python index used as a slice bound or search start:
negative values count from the end, and everything is clamped to
`[0, len]`. -/
def clampIdx (len : Nat) (i : Int) : Nat :=
  if i < 0 then (Int.ofNat len + i).toNat else min i.toNat len

/-- Python `s.find(sub, start)` (with a possibly negative `start`). -/
def pyFindFrom (hay sub : Chars) (start : Int) : Int :=
  let e := clampIdx hay.length start
  let r := pyFind (hay.drop e) sub
  if r < 0 then -1 else r + Int.ofNat e

/-- Python `s[a:b]`. -/
def pySlice (s : Chars) (a b : Int) : Chars :=
  let a' := clampIdx s.length a
  let b' := clampIdx s.length b
  (s.drop a').take (b' - a')

/-- Digit run accepted by Python `int(·, 10)` after sign and whitespace
removal: nonempty, and underscores may appear only between digits. -/
def pyIntDigitsOK : Chars → Bool
  | [] => false
  | [c] => c.isDigit
  | c :: d :: rest =>
    c.isDigit &&
      (if d = '_' then
        match rest with
        | [] => false
        | _ :: _ => pyIntDigitsOK rest
      else pyIntDigitsOK (d :: rest))

/-- Numeric value of a digit run, skipping underscores. -/
def digitsVal (s : Chars) : Nat :=
  s.foldl (fun acc c => if c = '_' then acc else acc * 10 + (c.toNat - 48)) 0

/-- Python exceptions that the script can raise. -/
inductive PyErr where
  | valueError : List Chars → PyErr
  | typeError : Chars → PyErr
deriving DecidableEq, Repr

/-- Sign handling of Python `int(·, 10)`: one optional leading `+`/`-`. -/
def pyIntSign : Chars → Int × Chars
  | '+' :: r => (1, r)
  | '-' :: r => (-1, r)
  | r => (1, r)

/-- Python `int(s, 10)`: strip whitespace, optional sign, digit run. -/
def pyInt (s : Chars) : Except PyErr Int :=
  if pyIntDigitsOK (pyIntSign (pyStrip s)).2 then
    .ok ((pyIntSign (pyStrip s)).1 * Int.ofNat (digitsVal (pyIntSign (pyStrip s)).2))
  else .error (.valueError [("invalid literal for int() with base 10: ").toList ++ s])

/-- Character class of the first group of
`ALIAS_RE = re.compile("^([a-z-]+) [(](.*)[)]$")` (line 21):
a lowercase ASCII letter or a hyphen. -/
def isNameChar (c : Char) : Bool := ('a' ≤ c && c ≤ 'z') || c = '-'

/-- Core of `ALIAS_RE.match` on a string with no trailing newline:
the maximal leading `[a-z-]` run is the name (nonempty), followed by
a literal space and `(`, and the rest must end in `)`; the greedy `(.*)`
group is everything in between and cannot contain a newline. -/
def aliasCore (s : Chars) : Option (Chars × Chars) :=
  if s.takeWhile isNameChar ≠ [] ∧
      (s.dropWhile isNameChar).take 2 = [' ', '('] ∧
      (s.dropWhile isNameChar).getLast? = some ')' ∧
      '\n' ∉ ((s.dropWhile isNameChar).drop 2).dropLast
  then some (s.takeWhile isNameChar, ((s.dropWhile isNameChar).drop 2).dropLast)
  else none

/-- `ALIAS_RE.match(s)`, returning `(group(1), group(2))` on success.
Python `$` (without `re.MULTILINE`) also matches just before one trailing
newline, so such a newline is discarded first. -/
def aliasMatch (s : Chars) : Option (Chars × Chars) :=
  match s.getLast? with
  | some '\n' => aliasCore s.dropLast
  | _ => aliasCore s

/-- Lines 82–90: a non-indented line is a type declaration; `ALIAS_RE`
splits it into canonical name and alias, otherwise the whole line is the
name and there is no alias. -/
def declParse (line : Chars) : Chars × Option Chars :=
  match aliasMatch line with
  | some (n, a) => (n, some a)
  | none => (line, none)

/-- The slice `buf[p+9:q]` of lines 46–48 of `extractType`, where
`p = buf.find('icmptype ')` and `q = buf.find("\n", p)`. -/
def listingTypeSlice (buf : Chars) : Chars :=
  pySlice buf (pyFind buf (("icmptype ").toList) + 9)
    (pyFindFrom buf (("\n").toList) (pyFind buf (("icmptype ").toList)))

/-- Lines 43–49 of `extractType`: scrape the rule-listing text `buf` for
the numeric ICMP type, `int(buf[p+9:q], 10)`. -/
def parseListingType (buf : Chars) : Except PyErr Int :=
  pyInt (listingTypeSlice buf)

/-- `q = buf.find(" ", p+9)` of line 66 of `extractCode`, where
`p = buf.find('icmptype ')`. -/
def listingCodeQ (buf : Chars) : Int :=
  pyFindFrom buf ((" ").toList) (pyFind buf (("icmptype ").toList) + 9)

/-- The slice `buf[p+9:q]` of line 67 of `extractCode` (the type field). -/
def listingCodeSliceT (buf : Chars) : Chars :=
  pySlice buf (pyFind buf (("icmptype ").toList) + 9) (listingCodeQ buf)

/-- `p = buf.find("code ", q)` of line 69 of `extractCode`. -/
def listingCodeP2 (buf : Chars) : Int :=
  pyFindFrom buf (("code ").toList) (listingCodeQ buf)

/-- The slice `buf[p+5:q]` of line 71 of `extractCode` (the code field),
with `q = buf.find("\n", p)` from line 70. -/
def listingCodeSliceC (buf : Chars) : Chars :=
  pySlice buf (listingCodeP2 buf + 5)
    (pyFindFrom buf (("\n").toList) (listingCodeP2 buf))

/-- Lines 61–73 of `extractCode`: scrape the rule-listing text for the
numeric type (`type_ = int(buf[p+9:q], 10)`) and then the numeric code
(`code = int(buf[p+5:q], 10)`). -/
def parseListingCode (buf : Chars) : Except PyErr (Int × Int) :=
  match pyInt (listingCodeSliceT buf) with
  | .error e => .error e
  | .ok t =>
    match pyInt (listingCodeSliceC buf) with
    | .error e => .error e
    | .ok c => .ok (t, c)

/-- A Python value handed to `%`-formatting. -/
inductive PyVal where
  | int : Int → PyVal
  | str : Chars → PyVal

/-- Python `%d` conversion: accepts a number, raises `TypeError` on a
string. -/
def fmtConvD : PyVal → Except PyErr Chars
  | .int i => .ok (toString i).toList
  | .str _ => .error (.typeError (("%d format: a number is required, not str").toList))

/-- Python `%s` conversion: never fails. -/
def fmtConvS : PyVal → Except PyErr Chars
  | .int i => .ok (toString i).toList
  | .str s => .ok s

/-- Evaluation of the raise argument on line 104–105,
`"invalid type %d for %s (expected %d)" % (t, codeName, curTypeName,)`:
the conversions are applied left to right and the third one is `%d`
applied to `curTypeName`. -/
def mismatchMessage (t codeName curTypeName : PyVal) : Except PyErr Chars :=
  match fmtConvD t with
  | .error e => .error e
  | .ok s1 =>
    match fmtConvS codeName with
    | .error e => .error e
    | .ok s2 =>
      match fmtConvD curTypeName with
      | .error e => .error e
      | .ok s3 =>
        .ok ((("invalid type ").toList ++ s1 ++ (" for ").toList ++ s2 ++
              (" (expected ").toList ++ s3 ++ ((")").toList)))

/-- First argument of the line-99 raise
`ValueError("found code %s for missing type", line)` (the format string is
never interpolated there: it is passed as a plain first argument). -/
def orphanMsg : Chars := ("found code %s for missing type").toList

/-- One `logger.info` event of the parse/resolve loop (lines 86–106). -/
inductive LogEvent where
  | foundTypeAlias : Chars → Chars → LogEvent
  | foundType : Chars → LogEvent
  | foundTypeVal : Int → Chars → LogEvent
  | foundCode : Chars → Chars → LogEvent
  | foundTypeCode : Int → Int → Chars → LogEvent
deriving DecidableEq, Repr

/-- State of the module-level parse/resolve loop (lines 75–107):
the two dictionaries (as insertion-ordered key/value lists), the current
type declaration, and the stream of `logger.info` events.  The unused
`nameByType` dictionary of line 76 is never written or read and is
omitted. -/
structure LoopState where
  typeByName : List (Chars × Int)
  codeTypeByName : List (Chars × (Int × Int))
  curTypeName : Option Chars
  curTypeVal : Option Int
  log : List LogEvent
deriving DecidableEq, Repr

/-- Python `dict` assignment `d[k] = v`: overwrite in place if the key is
present (keeping its position), otherwise append. -/
def dictInsert (d : List (Chars × α)) (k : Chars) (v : α) : List (Chars × α) :=
  if d.any (fun p => p.1 == k) then
    d.map (fun p => if p.1 = k then (k, v) else p)
  else d ++ [(k, v)]

/-- Insert the canonical name and, when present, the alias (lines 93–95);
the canonical name is inserted first. -/
def declInsert (tbn : List (Chars × Int)) : Chars × Option Chars → Int → List (Chars × Int)
  | (n, some a), v => dictInsert (dictInsert tbn n v) a v
  | (n, none), v => dictInsert tbn n v

/-- The `logger.info` call of line 86 or 90. -/
def declEvent : Chars × Option Chars → LogEvent
  | (n, some a) => .foundTypeAlias n a
  | (n, none) => .foundType n

/-- State at lines 75–79, before the loop. -/
def initState : LoopState := ⟨[], [], none, none, []⟩

/-- Does the line start with a space?  The loop's branch test on line 81
is `line.startswith(' ')` — a single space character, not arbitrary
whitespace. -/
def startsWithSpace : Chars → Bool
  | c :: _ => c == ' '
  | [] => false

/-- One iteration of the loop body (lines 81–107).  On a non-indented
line the declaration is parsed and probed via `extractType` (whose only
data dependency is the rule-listing text `listing name`); on an indented
line the code name is `line.lstrip()` and is probed via `extractCode`,
and the scraped type must equal `curTypeVal`.  The log events are those
emitted on the successful path; when an exception escapes, the process
dies and the log stream is not part of the produced value. -/
def step (listing : Chars → Chars) (st : LoopState) (line : Chars) :
    Except PyErr LoopState :=
  if startsWithSpace line then
    match st.curTypeName with
    | none => .error (.valueError [orphanMsg, line])
    | some ctn =>
      let codeName := pyLstrip line
      match parseListingCode (listing codeName) with
      | .error e => .error e
      | .ok tc =>
        if some tc.1 = st.curTypeVal then
          .ok { st with
            codeTypeByName := dictInsert st.codeTypeByName codeName tc,
            log := st.log ++ [.foundCode codeName ctn, .foundTypeCode tc.1 tc.2 codeName] }
        else
          match mismatchMessage (.int tc.1) (.str codeName) (.str ctn) with
          | .error e => .error e
          | .ok m => .error (.valueError [m])
  else
    let d := declParse line
    match parseListingType (listing d.1) with
    | .error e => .error e
    | .ok n =>
      .ok { st with
        typeByName := declInsert st.typeByName d n,
        curTypeName := some d.1,
        curTypeVal := some n,
        log := st.log ++ [declEvent d, .foundTypeVal n d.1] }

/-- The whole `for line in buf.strip().splitlines(False)` loop. -/
def runLoop (listing : Chars → Chars) : List Chars → LoopState → Except PyErr LoopState
  | [], st => .ok st
  | l :: ls, st =>
    match step listing st l with
    | .error e => .error e
    | .ok st' => runLoop listing ls st'

/-- Rendering of line 130: `"ICMP_TYPE[\"%s\"] = %d\n" % (typeName, typeVal,)`
(the trailing newline is the line terminator and is not part of the
modelled line). -/
def typeAssignLine (p : Int × Chars) : Chars :=
  ("ICMP_TYPE[\"").toList ++ p.2 ++ ("\"] = ").toList ++ (toString p.1).toList

/-- Rendering of lines 133–134:
`"ICMP_TYPE_CODE[\"%s\"] = (%d, %d,)\n" % (codeName, typeVal, codeVal,)`. -/
def codeAssignLine (p : Int × Int × Chars) : Chars :=
  ("ICMP_TYPE_CODE[\"").toList ++ p.2.2 ++ ("\"] = (").toList ++
    (toString p.1).toList ++ (", ").toList ++ (toString p.2.1).toList ++ (",)").toList

/-- Lexicographic order on Python strings (by character code point). -/
def charsLE : Chars → Chars → Bool
  | [], _ => true
  | _ :: _, [] => false
  | a :: as, b :: bs => a < b || (a = b && charsLE as bs)

/-- Python tuple order on the `(typeVal, typeName)` pairs of line 118. -/
def typeTupLE (a b : Int × Chars) : Bool :=
  a.1 < b.1 || (a.1 = b.1 && charsLE a.2 b.2)

/-- Python tuple order on the `(typeVal, codeVal, codeName)` triples of
line 124. -/
def codeTupLE (a b : Int × Int × Chars) : Bool :=
  a.1 < b.1 || (a.1 = b.1 && (a.2.1 < b.2.1 || (a.2.1 = b.2.1 && charsLE a.2.2 b.2.2)))

/-- Sorted insertion, the building block of the model of `list.sort()`. -/
def insSorted (le : α → α → Bool) (x : α) : List α → List α
  | [] => [x]
  | y :: ys => if le x y then x :: y :: ys else y :: insSorted le x ys

/-- Model of Python `list.sort()` (lines 119 and 125): ascending by the
given total order.  The element tuples are pairwise distinct here (their
name components are dictionary keys), so any correct sort produces the
same list. -/
def pySort (le : α → α → Bool) (l : List α) : List α :=
  l.foldr (insSorted le) []

/-- Worker for the merge-emission loop, with a fuel argument so that the
recursion is structural: each iteration of the `while` loop of lines
127–134 consumes exactly one pending element, so a fuel equal to the
total number of pending elements never runs out. -/
def mergeEmitFuel : Nat → List (Int × Chars) → List (Int × Int × Chars) → List Chars
  | _, [], cs => cs.map codeAssignLine
  | _, ts, [] => ts.map typeAssignLine
  | 0, _ :: _, _ :: _ => []
  | f + 1, t :: ts, c :: cs =>
    if t.1 ≤ c.1 then typeAssignLine t :: mergeEmitFuel f ts (c :: cs)
    else codeAssignLine c :: mergeEmitFuel f (t :: ts) cs

/-- The merge-emission `while` loop of lines 127–134 followed by the two
drain loops of lines 136–141: while both lists are nonempty, emit the
head type entry if its numeric type is `<=` the head code entry's numeric
type, else the head code entry; afterwards drain whichever list is left. -/
def mergeEmit (ts : List (Int × Chars)) (cs : List (Int × Int × Chars)) : List Chars :=
  mergeEmitFuel (ts.length + cs.length) ts cs

/-- The four header lines of lines 111–114 (`argv0` is `sys.argv[0]`). -/
def headerLines (argv0 : Chars) : List Chars :=
  [("# icmp.py").toList,
   ("# generated by ").toList ++ argv0,
   ("ICMP_TYPE = \x7b\x7d").toList,
   ("ICMP_TYPE_CODE = \x7b\x7d").toList]

/-- Lines 116–141: build the `(typeVal, typeName)` and
`(typeVal, codeVal, codeName)` lists from the two dictionaries, sort
each, and merge-emit. -/
def emitFromState (st : LoopState) : List Chars :=
  let types := pySort typeTupLE (st.typeByName.map (fun p => (p.2, p.1)))
  let codes := pySort codeTupLE (st.codeTypeByName.map (fun p => (p.2.1, p.2.2, p.1)))
  mergeEmit types codes

/-- The lines handed to the loop: `buf.strip().splitlines(False)`
(line 80). -/
def linesOf (body : Chars) : List Chars := pySplitlines (pyStrip body)

/-- Everything after the help-text slicing: the parse/resolve loop over
the sliced body, then (only if no exception escaped) the header lines and
the merge emission.  All `sys.stdout.write` calls of the script occur
after the loop, so an escaping exception means nothing was written. -/
def runBody (listing : Chars → Chars) (argv0 body : Chars) :
    Except PyErr (List Chars) :=
  match runLoop listing (linesOf body) initState with
  | .error e => .error e
  | .ok st => .ok (headerLines argv0 ++ emitFromState st)

/-- Lines 30–31: `p = buf.find("Valid ICMP Types:\n")`; `buf = buf[p+18:]`.
When the marker is absent `p` is the sentinel `-1` and the slice starts at
character 17. -/
def slicedBody (rawHelp : Chars) : Chars :=
  let p := pyFind rawHelp (("Valid ICMP Types:\n").toList)
  pySlice rawHelp (p + 18) (Int.ofNat rawHelp.length)

/-- The whole pipeline: slice the help text, run the parse/resolve loop,
emit.  `listing name` is the `iptables -nL FORWARD` text observed after
probing `name`, `argv0` is `sys.argv[0]`, `rawHelp` is the
`iptables -p icmp -h` output. -/
def run (listing : Chars → Chars) (argv0 rawHelp : Chars) :
    Except PyErr (List Chars) :=
  runBody listing argv0 (slicedBody rawHelp)

/-- Spec-side attribution (§4.2 of the spec, as amended): walk the lines,
remembering the canonical name of the most recently seen line that does
not begin with a space; each line beginning with a space contributes the
pair (line with leading whitespace removed, that name).  The `none` case
is unreachable on runs that finish without an exception. -/
def specAttrib : List Chars → Option Chars → List (Chars × Chars)
  | [], _ => []
  | l :: ls, cur =>
    if startsWithSpace l then
      match cur with
      | some t => (pyLstrip l, t) :: specAttrib ls cur
      | none => []
    else specAttrib ls (some (declParse l).1)

/-- The `(codeName, typeName)` pairs logged by line 101, in order. -/
def codeAttrib (log : List LogEvent) : List (Chars × Chars) :=
  log.filterMap (fun e =>
    match e with
    | .foundCode c t => some (c, t)
    | _ => none)

/-- Spec-side list of resolved type names including aliases: one name per
non-indented line, plus its alias when `ALIAS_RE` matches, in input
order. -/
def specTypeNames : List Chars → List Chars
  | [] => []
  | l :: ls =>
    if startsWithSpace l then specTypeNames ls
    else
      match declParse l with
      | (n, some a) => n :: a :: specTypeNames ls
      | (n, none) => n :: specTypeNames ls

/-- Spec-side list of resolved code names: the left-stripped content of
each indented line, in input order. -/
def specCodeNames : List Chars → List Chars
  | [] => []
  | l :: ls =>
    if startsWithSpace l then pyLstrip l :: specCodeNames ls
    else specCodeNames ls

/-- Does an output line have the `ICMP_TYPE["..."] = ...` shape?  The two
assignment forms are distinguished by their fixed prefixes, which differ
at the character after `ICMP_TYPE`. -/
def isTypeAssign (l : Chars) : Bool := (("ICMP_TYPE[\"").toList).isPrefixOf l

/-- Does an output line have the `ICMP_TYPE_CODE["..."] = ...` shape? -/
def isCodeAssign (l : Chars) : Bool := (("ICMP_TYPE_CODE[\"").toList).isPrefixOf l

/-- Is this exception the line-99 orphan-code `ValueError`?  That raise
passes two arguments (the uninterpolated format string and the line); the
other `ValueError`s of the script carry a single argument. -/
def errIsOrphan : PyErr → Bool
  | .valueError [m, _] => m == orphanMsg
  | _ => false

/-- Did the run die with the orphan-code error? -/
def isOrphanError : Except PyErr (List Chars) → Bool
  | .error e => errIsOrphan e
  | .ok _ => false

/-- Spec-side alias matcher, following the spec's words: the name group is
made of word characters and hyphens (`<word-chars-and-hyphens>`), the rest
as in `aliasCore`.  Used to compare the spec's claimed pattern with the
implemented `[a-z-]` one. -/
def isWordHyphenChar (c : Char) : Bool := c.isAlphanum || c = '_' || c = '-'

/-- Spec-side version of the matcher with the word-character name class. -/
def specWordAliasMatch (s : Chars) : Option (Chars × Chars) :=
  if s.takeWhile isWordHyphenChar ≠ [] ∧
      (s.dropWhile isWordHyphenChar).take 2 = [' ', '('] ∧
      (s.dropWhile isWordHyphenChar).getLast? = some ')' ∧
      '\n' ∉ ((s.dropWhile isWordHyphenChar).drop 2).dropLast
  then some (s.takeWhile isWordHyphenChar, ((s.dropWhile isWordHyphenChar).drop 2).dropLast)
  else none

/-- Key-list effect of one Python dict assignment: append the key if it is
new, otherwise keep the key list unchanged. -/
def insertKey (ks : List Chars) (k : Chars) : List Chars :=
  if ks.any (fun x => x == k) then ks else ks ++ [k]

/-- Key-list effect of a sequence of dict assignments. -/
def foldInsert (ks : List Chars) (names : List Chars) : List Chars :=
  names.foldl insertKey ks

/-- Probe environment for the small positive examples: type probes on the
name `a` see a plain type-8 listing, everything else sees a type-8 code-0
listing. -/
def listingA : Chars → Chars := fun n =>
  if n = ("a").toList then ("icmptype 8\n").toList else ("icmptype 8 code 0\n").toList

/-- Help text whose body has a trailing-whitespace code line ` b ` that is
not the last line (so the whole-buffer `strip()` does not touch it). -/
def rawHelpTrail : Chars := ("Valid ICMP Types:\na\n b \n c\n").toList

/-- Probe environment for the mismatch scenario: the type probe on `a`
resolves to 1, the code probe on `b` reports type 2 code 3. -/
def listingMis : Chars → Chars := fun n =>
  if n = ("a").toList then ("icmptype 1\n").toList else ("icmptype 2 code 3\n").toList

/-- Help text with one type `a` and one nested code `b`. -/
def rawHelpMis : Chars := ("Valid ICMP Types:\na\n b\n").toList

/-- Help text whose sliced body begins with an indented line. -/
def rawHelpIndent : Chars := ("Valid ICMP Types:\n b\n").toList

/-- Probe environment that answers every type probe with type 3. -/
def listingT3 : Chars → Chars := fun _ => ("icmptype 3\n").toList

/-- Probe environment for the alias-collision scenario: `a` resolves to
type 1 and `b` to type 2. -/
def listingCollide : Chars → Chars := fun n =>
  if n = ("a").toList then ("icmptype 1\n").toList else ("icmptype 2\n").toList

/-- Help text where the alias of `a` collides with the later type `b`. -/
def rawHelpCollide : Chars := ("Valid ICMP Types:\na (b)\nb\n").toList

/-- Probe environment whose rule listing never contains the `icmptype `
marker, yet whose fallback slice `buf[8:len-1]` is the decimal `42`. -/
def listingNoMarker : Chars → Chars := fun _ => ("abcdefgh42\n").toList

/-- Help text with a single type declaration `a`. -/
def rawHelpOneType : Chars := ("Valid ICMP Types:\na\n").toList

/-! ### Helper lemmas -/

theorem mem_of_getLast?_eq {l : Chars} {a : Char} (h : l.getLast? = some a) : a ∈ l := by
  obtain ⟨hne, rfl⟩ := List.mem_getLast?_eq_getLast (l := l) (x := a) (by rw [h]; exact rfl)
  exact List.getLast_mem hne

theorem all_takeWhile_self (p : Char → Bool) (s : Chars) : (s.takeWhile p).all p = true := by
  induction s with
  | nil => rfl
  | cons c t ih =>
    by_cases hc : p c
    · simp [List.takeWhile_cons, hc, ih]
    · simp [List.takeWhile_cons, hc]

theorem takeWhile_run (p : Char → Bool) (n : Chars) (x : Char) (t : Chars)
    (hn : n.all p = true) (hx : p x = false) :
    (n ++ x :: t).takeWhile p = n ∧ (n ++ x :: t).dropWhile p = x :: t := by
  induction n with
  | nil => simp [List.takeWhile_cons, List.dropWhile_cons, hx]
  | cons c m ih =>
    simp only [List.all_cons, Bool.and_eq_true] at hn
    obtain ⟨h1, h2⟩ := ih hn.2
    simp [List.takeWhile_cons, List.dropWhile_cons, hn.1, h1, h2]

theorem aliasCore_eq_some (s n a : Chars) :
    aliasCore s = some (n, a) ↔
      s = n ++ ' ' :: '(' :: (a ++ [')']) ∧ n ≠ [] ∧
        n.all isNameChar = true ∧ '\n' ∉ a := by
  constructor
  · intro h
    unfold aliasCore at h
    split at h
    · next hcond =>
      obtain ⟨hne, htake, hlast, hnl⟩ := hcond
      injection h with h'
      injection h' with hn ha
      subst hn; subst ha
      set r := s.dropWhile isNameChar with hr
      have hrest : r.drop 2 ≠ [] := by
        intro hd
        rw [← List.take_append_drop 2 r, hd, List.append_nil, htake] at hlast
        exact absurd hlast (by simp)
      have hlast2 : (r.drop 2).getLast? = some ')' := by
        rw [← List.take_append_drop 2 r, htake] at hlast
        rwa [List.getLast?_append_of_ne_nil _ hrest] at hlast
      obtain ⟨hne2, hg⟩ := List.mem_getLast?_eq_getLast (l := r.drop 2) (x := ')')
        (by rw [hlast2]; exact rfl)
      have hsplit : r.drop 2 = (r.drop 2).dropLast ++ [')'] := by
        conv_lhs => rw [← List.dropLast_append_getLast hne2]
        rw [← hg]
      refine ⟨?_, hne, all_takeWhile_self isNameChar s, hnl⟩
      conv_lhs => rw [← List.takeWhile_append_dropWhile (p := isNameChar) (l := s)]
      rw [← hr]
      conv_lhs => rw [← List.take_append_drop 2 r, htake, hsplit]
      rfl
    · exact absurd h (by simp)
  · rintro ⟨hs, hne, hall, hnl⟩
    have hsp : isNameChar ' ' = false := rfl
    obtain ⟨h1, h2⟩ := takeWhile_run isNameChar n ' ' ('(' :: (a ++ [')'])) hall hsp
    rw [← hs] at h1 h2
    unfold aliasCore
    rw [h1, h2]
    have hlast : (' ' :: '(' :: (a ++ [')'])).getLast? = some ')' := by
      have : (' ' :: '(' :: (a ++ [')'])) = (' ' :: '(' :: a) ++ [')'] := by simp
      rw [this, List.getLast?_concat]
    simp [hlast, hne, hnl, List.dropLast_concat]

theorem aliasMatch_of_no_newline (s : Chars) (h : '\n' ∉ s) : aliasMatch s = aliasCore s := by
  unfold aliasMatch
  split
  · next heq => exact absurd (mem_of_getLast?_eq heq) h
  · rfl

theorem aliasMatch_eq_some_facts (s n a : Chars) (h : aliasMatch s = some (n, a)) :
    n ≠ [] ∧ n.all isNameChar = true ∧ '\n' ∉ a := by
  unfold aliasMatch at h
  split at h
  · obtain ⟨-, h2, h3, h4⟩ := (aliasCore_eq_some _ _ _).1 h
    exact ⟨h2, h3, h4⟩
  · obtain ⟨-, h2, h3, h4⟩ := (aliasCore_eq_some _ _ _).1 h
    exact ⟨h2, h3, h4⟩

theorem mergeEmitFuel_nil_left (f : Nat) (cs : List (Int × Int × Chars)) :
    mergeEmitFuel f [] cs = cs.map codeAssignLine := by
  cases f <;> cases cs <;> rfl

theorem mergeEmitFuel_nil_right (f : Nat) (ts : List (Int × Chars)) :
    mergeEmitFuel f ts [] = ts.map typeAssignLine := by
  cases f <;> cases ts <;> rfl

theorem mergeEmitFuel_succ_cons (f : Nat) (t : Int × Chars) (ts : List (Int × Chars))
    (c : Int × Int × Chars) (cs : List (Int × Int × Chars)) :
    mergeEmitFuel (f + 1) (t :: ts) (c :: cs) =
      if t.1 ≤ c.1 then typeAssignLine t :: mergeEmitFuel f ts (c :: cs)
      else codeAssignLine c :: mergeEmitFuel f (t :: ts) cs := rfl

theorem mergeEmitFuel_congr (f : Nat) : ∀ (g : Nat) (ts : List (Int × Chars))
    (cs : List (Int × Int × Chars)), ts.length + cs.length ≤ f →
    ts.length + cs.length ≤ g → mergeEmitFuel f ts cs = mergeEmitFuel g ts cs := by
  induction f with
  | zero =>
    intro g ts cs hf hg
    cases ts with
    | nil => rw [mergeEmitFuel_nil_left, mergeEmitFuel_nil_left]
    | cons t ts => simp at hf
  | succ f ih =>
    intro g ts cs hf hg
    cases ts with
    | nil => rw [mergeEmitFuel_nil_left, mergeEmitFuel_nil_left]
    | cons t ts =>
      cases cs with
      | nil => rw [mergeEmitFuel_nil_right, mergeEmitFuel_nil_right]
      | cons c cs =>
        cases g with
        | zero => exfalso; simp at hg
        | succ g =>
          rw [mergeEmitFuel_succ_cons, mergeEmitFuel_succ_cons]
          by_cases hle : t.1 ≤ c.1
          · rw [if_pos hle, if_pos hle, ih g ts (c :: cs)
              (by simp only [List.length_cons] at hf ⊢; omega)
              (by simp only [List.length_cons] at hg ⊢; omega)]
          · rw [if_neg hle, if_neg hle, ih g (t :: ts) cs
              (by simp only [List.length_cons] at hf ⊢; omega)
              (by simp only [List.length_cons] at hg ⊢; omega)]

theorem mergeEmit_nil_codes (ts : List (Int × Chars)) :
    mergeEmit ts [] = ts.map typeAssignLine := by
  unfold mergeEmit
  rw [mergeEmitFuel_nil_right]

theorem mergeEmit_nil_types (cs : List (Int × Int × Chars)) :
    mergeEmit [] cs = cs.map codeAssignLine := by
  unfold mergeEmit
  rw [mergeEmitFuel_nil_left]

theorem mergeEmit_cons_cons (t : Int × Chars) (ts : List (Int × Chars))
    (c : Int × Int × Chars) (cs : List (Int × Int × Chars)) :
    mergeEmit (t :: ts) (c :: cs) =
      if t.1 ≤ c.1 then typeAssignLine t :: mergeEmit ts (c :: cs)
      else codeAssignLine c :: mergeEmit (t :: ts) cs := by
  unfold mergeEmit
  rw [show (t :: ts).length + (c :: cs).length = (ts.length + cs.length + 1) + 1 from by
    simp only [List.length_cons]; omega]
  rw [mergeEmitFuel_succ_cons]
  by_cases hle : t.1 ≤ c.1
  · rw [if_pos hle, if_pos hle,
      mergeEmitFuel_congr (ts.length + cs.length + 1) (ts.length + (c :: cs).length) ts (c :: cs)
        (by simp only [List.length_cons]; omega) (by simp only [List.length_cons]; omega)]
  · rw [if_neg hle, if_neg hle,
      mergeEmitFuel_congr (ts.length + cs.length + 1) ((t :: ts).length + cs.length) (t :: ts) cs
        (by simp only [List.length_cons]; omega) (by simp only [List.length_cons]; omega)]

theorem isPrefixOf_append_self (a b : Chars) : (a.isPrefixOf (a ++ b)) = true := by
  induction a with
  | nil => simp
  | cons c t ih => simp [List.isPrefixOf_cons₂, ih]

theorem isPrefixOf_append_ne (pre : Chars) (c₁ c₂ : Char) (s t : Chars) (h : c₁ ≠ c₂) :
    (((pre ++ c₁ :: s).isPrefixOf (pre ++ c₂ :: t))) = false := by
  induction pre with
  | nil => simp [List.isPrefixOf_cons₂, h]
  | cons d m ih => simp [List.isPrefixOf_cons₂, ih]

theorem isTypeAssign_typeLine (p : Int × Chars) : isTypeAssign (typeAssignLine p) = true := by
  unfold isTypeAssign typeAssignLine
  exact isPrefixOf_append_self _ _

theorem isCodeAssign_codeLine (p : Int × Int × Chars) :
    isCodeAssign (codeAssignLine p) = true := by
  unfold isCodeAssign codeAssignLine
  exact isPrefixOf_append_self _ _

theorem isCodeAssign_typeLine (p : Int × Chars) : isCodeAssign (typeAssignLine p) = false := by
  unfold isCodeAssign typeAssignLine
  have h1 : (("ICMP_TYPE_CODE[\"").toList : Chars) =
      ("ICMP_TYPE").toList ++ '_' :: ("CODE[\"").toList := by decide
  have h2 : (("ICMP_TYPE[\"").toList : Chars) = ("ICMP_TYPE").toList ++ ['[', '"'] := by decide
  rw [h1, h2]
  exact isPrefixOf_append_ne _ _ _ _ _ (by decide)

theorem isTypeAssign_codeLine (p : Int × Int × Chars) :
    isTypeAssign (codeAssignLine p) = false := by
  unfold isTypeAssign codeAssignLine
  have h1 : (("ICMP_TYPE[\"").toList : Chars) = ("ICMP_TYPE").toList ++ '[' :: ['"'] := by decide
  have h2 : (("ICMP_TYPE_CODE[\"").toList : Chars) =
      ("ICMP_TYPE").toList ++ '_' :: ("CODE[\"").toList := by decide
  rw [h1, h2]
  exact isPrefixOf_append_ne _ _ _ _ _ (by decide)

theorem countP_mergeEmit_type (ts : List (Int × Chars)) (cs : List (Int × Int × Chars)) :
    (mergeEmit ts cs).countP isTypeAssign = ts.length := by
  induction ts generalizing cs with
  | nil =>
    rw [mergeEmit_nil_types]
    simp only [List.countP_map, List.length_nil]
    rw [List.countP_eq_zero]
    intro a ha
    simp [Function.comp, isTypeAssign_codeLine]
  | cons t ts iht =>
    induction cs with
    | nil =>
      rw [mergeEmit_nil_codes]
      simp only [List.countP_map]
      rw [List.countP_eq_length]
      intro a ha
      simp [Function.comp, isTypeAssign_typeLine]
    | cons c cs ihc =>
      rw [mergeEmit_cons_cons]
      by_cases hle : t.1 ≤ c.1
      · simp only [hle, if_true, List.countP_cons, isTypeAssign_typeLine, iht]
        simp
      · simp only [hle, if_false, List.countP_cons, isTypeAssign_codeLine, ihc]
        simp

theorem countP_mergeEmit_code (ts : List (Int × Chars)) (cs : List (Int × Int × Chars)) :
    (mergeEmit ts cs).countP isCodeAssign = cs.length := by
  induction ts generalizing cs with
  | nil =>
    rw [mergeEmit_nil_types]
    simp only [List.countP_map]
    rw [List.countP_eq_length]
    intro a ha
    simp [Function.comp, isCodeAssign_codeLine]
  | cons t ts iht =>
    induction cs with
    | nil =>
      rw [mergeEmit_nil_codes]
      simp only [List.countP_map, List.length_nil]
      rw [List.countP_eq_zero]
      intro a ha
      simp [Function.comp, isCodeAssign_typeLine]
    | cons c cs ihc =>
      rw [mergeEmit_cons_cons]
      by_cases hle : t.1 ≤ c.1
      · simp only [hle, if_true, List.countP_cons, isCodeAssign_typeLine, iht]
        simp
      · simp only [hle, if_false, List.countP_cons, isCodeAssign_codeLine, ihc]
        simp

theorem mem_mergeEmit (ts : List (Int × Chars)) (cs : List (Int × Int × Chars))
    (l : Chars) (h : l ∈ mergeEmit ts cs) :
    (∃ t ∈ ts, l = typeAssignLine t) ∨ (∃ c ∈ cs, l = codeAssignLine c) := by
  induction ts generalizing cs with
  | nil =>
    rw [mergeEmit_nil_types] at h
    obtain ⟨c, hc, rfl⟩ := List.mem_map.1 h
    exact Or.inr ⟨c, hc, rfl⟩
  | cons t ts iht =>
    induction cs with
    | nil =>
      rw [mergeEmit_nil_codes] at h
      obtain ⟨t', ht, rfl⟩ := List.mem_map.1 h
      exact Or.inl ⟨t', ht, rfl⟩
    | cons c cs ihc =>
      rw [mergeEmit_cons_cons] at h
      by_cases hle : t.1 ≤ c.1
      · rw [if_pos hle] at h
        rcases List.mem_cons.1 h with h' | h'
        · exact Or.inl ⟨t, List.mem_cons_self t ts, h'⟩
        · rcases iht (c :: cs) h' with ⟨t', ht, he⟩ | ⟨c', hc, he⟩
          · exact Or.inl ⟨t', List.mem_cons_of_mem t ht, he⟩
          · exact Or.inr ⟨c', hc, he⟩
      · rw [if_neg hle] at h
        rcases List.mem_cons.1 h with h' | h'
        · exact Or.inr ⟨c, List.mem_cons_self c cs, h'⟩
        · rcases ihc h' with ⟨t', ht, he⟩ | ⟨c', hc, he⟩
          · exact Or.inl ⟨t', ht, he⟩
          · exact Or.inr ⟨c', List.mem_cons_of_mem c hc, he⟩

theorem length_insSorted (le : α → α → Bool) (x : α) (l : List α) :
    (insSorted le x l).length = l.length + 1 := by
  induction l with
  | nil => rfl
  | cons y ys ih =>
    by_cases hle : le x y
    · simp [insSorted, hle]
    · simp [insSorted, hle, ih]

theorem length_pySort (le : α → α → Bool) (l : List α) :
    (pySort le l).length = l.length := by
  induction l with
  | nil => rfl
  | cons x xs ih =>
    show (insSorted le x (List.foldr (insSorted le) [] xs)).length = xs.length + 1
    rw [length_insSorted]
    exact congrArg (· + 1) ih

theorem errIsOrphan_pyInt (s : Chars) (e : PyErr) (h : pyInt s = .error e) :
    errIsOrphan e = false := by
  unfold pyInt at h
  split at h
  · exact absurd h (by simp)
  · injection h with h'
    subst h'
    rfl

theorem errIsOrphan_parseListingType (buf : Chars) (e : PyErr)
    (h : parseListingType buf = .error e) : errIsOrphan e = false :=
  errIsOrphan_pyInt _ _ h

theorem errIsOrphan_parseListingCode (buf : Chars) (e : PyErr)
    (h : parseListingCode buf = .error e) : errIsOrphan e = false := by
  unfold parseListingCode at h
  split at h
  · next heq =>
    injection h with h'
    subst h'
    exact errIsOrphan_pyInt _ _ heq
  · next t heq =>
    split at h
    · next heq2 =>
      injection h with h'
      subst h'
      exact errIsOrphan_pyInt _ _ heq2
    · exact absurd h (by simp)

theorem mismatchMessage_str (t : Int) (cn ctn : Chars) :
    mismatchMessage (.int t) (.str cn) (.str ctn) =
      .error (.typeError (("%d format: a number is required, not str").toList)) := rfl

theorem codeAttrib_append (l1 l2 : List LogEvent) :
    codeAttrib (l1 ++ l2) = codeAttrib l1 ++ codeAttrib l2 := by
  unfold codeAttrib
  exact List.filterMap_append _ _ _

theorem codeAttrib_declEvent (d : Chars × Option Chars) (n : Int) :
    codeAttrib [declEvent d, .foundTypeVal n d.1] = [] := by
  obtain ⟨a, b⟩ := d
  cases b <;> rfl

theorem codeAttrib_codeEvent (c t : Chars) (tv cv : Int) :
    codeAttrib [.foundCode c t, .foundTypeCode tv cv c] = [(c, t)] := rfl

theorem keys_dictInsert (d : List (Chars × α)) (k : Chars) (v : α) :
    (dictInsert d k v).map Prod.fst = insertKey (d.map Prod.fst) k := by
  unfold dictInsert insertKey
  have hany : (d.any fun p => p.1 == k) = ((d.map Prod.fst).any fun x => x == k) := by
    induction d with
    | nil => rfl
    | cons p ps ih => simp [ih]
  rw [← hany]
  by_cases hc : (d.any fun p => p.1 == k) = true
  · rw [if_pos hc, if_pos hc, List.map_map]
    apply List.map_congr_left
    intro p hp
    by_cases hpk : p.1 = k
    · simp [hpk, Function.comp]
    · simp [hpk, Function.comp]
  · rw [if_neg hc, if_neg hc]
    simp

theorem keys_declInsert (tbn : List (Chars × Int)) (n : Chars) (ao : Option Chars) (v : Int) :
    (declInsert tbn (n, ao) v).map Prod.fst =
      (match ao with
      | some a => insertKey (insertKey (tbn.map Prod.fst) n) a
      | none => insertKey (tbn.map Prod.fst) n) := by
  cases ao <;> simp [declInsert, keys_dictInsert]

theorem foldInsert_nil (ks : List Chars) : foldInsert ks [] = ks := rfl

theorem foldInsert_cons (ks : List Chars) (n : Chars) (rest : List Chars) :
    foldInsert ks (n :: rest) = foldInsert (insertKey ks n) rest := rfl

theorem foldInsert_of_disjoint (names : List Chars) (ks : List Chars)
    (hd : ∀ n ∈ names, ¬ n ∈ ks) (hnd : names.Nodup) :
    foldInsert ks names = ks ++ names := by
  induction names generalizing ks with
  | nil => simp [foldInsert]
  | cons n rest ih =>
    have hn : ¬ (ks.any fun x => x == n) = true := by
      simp only [List.any_eq_true]
      rintro ⟨x, hx, hbx⟩
      rw [beq_iff_eq] at hbx
      exact hd n (by simp) (hbx ▸ hx)
    rw [foldInsert_cons, show insertKey ks n = ks ++ [n] from by unfold insertKey; rw [if_neg hn]]
    rw [ih]
    · simp
    · intro m hm hmem
      rcases List.mem_append.1 hmem with hmk | hml
      · exact hd m (List.mem_cons_of_mem _ hm) hmk
      · simp only [List.mem_singleton] at hml
        subst hml
        exact (List.nodup_cons.1 hnd).1 hm
    · exact (List.nodup_cons.1 hnd).2

theorem runLoop_codeAttrib (listing : Chars → Chars) (ls : List Chars)
    (st st' : LoopState) (h : runLoop listing ls st = .ok st') :
    codeAttrib st'.log = codeAttrib st.log ++ specAttrib ls st.curTypeName := by
  induction ls generalizing st with
  | nil =>
    unfold runLoop at h
    injection h with h'
    subst h'
    simp [specAttrib]
  | cons l ls ih =>
    unfold runLoop at h
    by_cases hs : startsWithSpace l = true
    · unfold step at h
      rw [if_pos hs] at h
      cases hctn : st.curTypeName with
      | none => rw [hctn] at h; exact absurd h (by simp)
      | some ctn =>
        rw [hctn] at h
        simp only [] at h
        cases hplc : parseListingCode (listing (pyLstrip l)) with
        | error e => rw [hplc] at h; exact absurd h (by simp)
        | ok tc =>
          rw [hplc] at h
          simp only [] at h
          by_cases hv : some tc.1 = st.curTypeVal
          · rw [if_pos hv] at h
            simp only [] at h
            have := ih _ h
            simp only [] at this
            rw [this, codeAttrib_append, codeAttrib_codeEvent]
            rw [specAttrib, if_pos hs]
            simp
          · rw [if_neg hv, mismatchMessage_str] at h
            exact absurd h (by simp)
    · unfold step at h
      rw [if_neg (by simpa using hs)] at h
      simp only [] at h
      cases hplt : parseListingType (listing (declParse l).1) with
      | error e => rw [hplt] at h; exact absurd h (by simp)
      | ok n =>
        rw [hplt] at h
        simp only [] at h
        have := ih _ h
        simp only [] at this
        rw [this, codeAttrib_append, codeAttrib_declEvent]
        conv_rhs => rw [specAttrib.eq_def]
        simp [hs]

theorem specTypeNames_cons_space (l : Chars) (ls : List Chars)
    (hs : startsWithSpace l = true) : specTypeNames (l :: ls) = specTypeNames ls := by
  simp [specTypeNames, hs]

theorem specTypeNames_cons_decl (l : Chars) (ls : List Chars)
    (hs : startsWithSpace l = false) :
    specTypeNames (l :: ls) =
      (match declParse l with
      | (n, some a) => n :: a :: specTypeNames ls
      | (n, none) => n :: specTypeNames ls) := by
  simp [specTypeNames, hs]

theorem specCodeNames_cons_space (l : Chars) (ls : List Chars)
    (hs : startsWithSpace l = true) :
    specCodeNames (l :: ls) = pyLstrip l :: specCodeNames ls := by
  simp [specCodeNames, hs]

theorem specCodeNames_cons_decl (l : Chars) (ls : List Chars)
    (hs : startsWithSpace l = false) :
    specCodeNames (l :: ls) = specCodeNames ls := by
  simp [specCodeNames, hs]

theorem runLoop_keys (listing : Chars → Chars) (ls : List Chars)
    (st st' : LoopState) (h : runLoop listing ls st = .ok st') :
    st'.typeByName.map Prod.fst =
      foldInsert (st.typeByName.map Prod.fst) (specTypeNames ls) ∧
    st'.codeTypeByName.map Prod.fst =
      foldInsert (st.codeTypeByName.map Prod.fst) (specCodeNames ls) := by
  induction ls generalizing st with
  | nil =>
    unfold runLoop at h
    injection h with h'
    subst h'
    exact ⟨rfl, rfl⟩
  | cons l ls ih =>
    unfold runLoop at h
    by_cases hs : startsWithSpace l = true
    · unfold step at h
      rw [if_pos hs] at h
      cases hctn : st.curTypeName with
      | none => rw [hctn] at h; exact absurd h (by simp)
      | some ctn =>
        rw [hctn] at h
        simp only [] at h
        cases hplc : parseListingCode (listing (pyLstrip l)) with
        | error e => rw [hplc] at h; exact absurd h (by simp)
        | ok tc =>
          rw [hplc] at h
          simp only [] at h
          by_cases hv : some tc.1 = st.curTypeVal
          · rw [if_pos hv] at h
            obtain ⟨h1, h2⟩ := ih _ h
            simp only [] at h1 h2
            rw [specTypeNames_cons_space l ls hs, specCodeNames_cons_space l ls hs]
            refine ⟨h1, ?_⟩
            rw [h2, keys_dictInsert, foldInsert_cons]
          · rw [if_neg hv, mismatchMessage_str] at h
            exact absurd h (by simp)
    · unfold step at h
      rw [if_neg (by simpa using hs)] at h
      simp only [] at h
      cases hplt : parseListingType (listing (declParse l).1) with
      | error e => rw [hplt] at h; exact absurd h (by simp)
      | ok n =>
        rw [hplt] at h
        simp only [] at h
        obtain ⟨h1, h2⟩ := ih _ h
        simp only [] at h1 h2
        rw [specTypeNames_cons_decl l ls (by simpa using hs),
          specCodeNames_cons_decl l ls (by simpa using hs)]
        refine ⟨?_, h2⟩
        rcases hdp : declParse l with ⟨dn, dao⟩
        rw [hdp] at h1
        cases dao with
        | none =>
          rw [h1, keys_declInsert]
          rw [foldInsert_cons]
        | some a =>
          rw [h1, keys_declInsert]
          rw [foldInsert_cons, foldInsert_cons]

theorem step_error_orphan (listing : Chars → Chars) (st : LoopState) (l : Chars) (e : PyErr)
    (h : step listing st l = .error e)
    (h2 : startsWithSpace l = true → st.curTypeName.isSome = true) :
    errIsOrphan e = false := by
  by_cases hs : startsWithSpace l = true
  · unfold step at h
    rw [if_pos hs] at h
    cases hctn : st.curTypeName with
    | none =>
      have := h2 hs
      rw [hctn] at this
      exact absurd this (by simp)
    | some ctn =>
      rw [hctn] at h
      simp only [] at h
      cases hplc : parseListingCode (listing (pyLstrip l)) with
      | error e' =>
        rw [hplc] at h
        injection h with h'
        subst h'
        exact errIsOrphan_parseListingCode _ _ hplc
      | ok tc =>
        rw [hplc] at h
        simp only [] at h
        by_cases hv : some tc.1 = st.curTypeVal
        · rw [if_pos hv] at h
          exact absurd h (by simp)
        · rw [if_neg hv, mismatchMessage_str] at h
          injection h with h'
          subst h'
          rfl
  · unfold step at h
    rw [if_neg hs] at h
    simp only [] at h
    cases hplt : parseListingType (listing (declParse l).1) with
    | error e' =>
      rw [hplt] at h
      injection h with h'
      subst h'
      exact errIsOrphan_parseListingType _ _ hplt
    | ok n =>
      rw [hplt] at h
      exact absurd h (by simp)

theorem step_ok_isSome (listing : Chars → Chars) (st : LoopState) (l : Chars)
    (st' : LoopState) (h : step listing st l = .ok st') :
    st'.curTypeName.isSome = true := by
  by_cases hs : startsWithSpace l = true
  · unfold step at h
    rw [if_pos hs] at h
    cases hctn : st.curTypeName with
    | none => rw [hctn] at h; exact absurd h (by simp)
    | some ctn =>
      rw [hctn] at h
      simp only [] at h
      cases hplc : parseListingCode (listing (pyLstrip l)) with
      | error e' => rw [hplc] at h; exact absurd h (by simp)
      | ok tc =>
        rw [hplc] at h
        simp only [] at h
        by_cases hv : some tc.1 = st.curTypeVal
        · rw [if_pos hv] at h
          injection h with h'
          subst h'
          simp
        · rw [if_neg hv, mismatchMessage_str] at h
          exact absurd h (by simp)
  · unfold step at h
    rw [if_neg hs] at h
    simp only [] at h
    cases hplt : parseListingType (listing (declParse l).1) with
    | error e' => rw [hplt] at h; exact absurd h (by simp)
    | ok n =>
      rw [hplt] at h
      simp only [] at h
      injection h with h'
      subst h'
      simp

theorem runLoop_error_orphan_of_isSome (listing : Chars → Chars) (ls : List Chars)
    (st : LoopState) (e : PyErr) (hst : st.curTypeName.isSome = true)
    (h : runLoop listing ls st = .error e) : errIsOrphan e = false := by
  induction ls generalizing st with
  | nil => unfold runLoop at h; exact absurd h (by simp)
  | cons l ls ih =>
    unfold runLoop at h
    cases hstep : step listing st l with
    | error e' =>
      rw [hstep] at h
      injection h with h'
      subst h'
      exact step_error_orphan _ _ _ _ hstep (fun _ => hst)
    | ok st1 =>
      rw [hstep] at h
      exact ih _ (step_ok_isSome _ _ _ _ hstep) h

theorem runLoop_error_orphan_head (listing : Chars → Chars) (l : Chars) (ls : List Chars)
    (st : LoopState) (e : PyErr) (hl : startsWithSpace l = false)
    (h : runLoop listing (l :: ls) st = .error e) : errIsOrphan e = false := by
  unfold runLoop at h
  cases hstep : step listing st l with
  | error e' =>
    rw [hstep] at h
    injection h with h'
    subst h'
    exact step_error_orphan _ _ _ _ hstep (fun hs => absurd hs (by simp [hl]))
  | ok st1 =>
    rw [hstep] at h
    exact runLoop_error_orphan_of_isSome _ _ _ _ (step_ok_isSome _ _ _ _ hstep) h

theorem dropWhile_head_not (p : Char → Bool) (s : Chars) (c : Char) (r : Chars)
    (h : s.dropWhile p = c :: r) : p c = false := by
  induction s with
  | nil => exact absurd h (by simp)
  | cons d t ih =>
    rw [List.dropWhile_cons] at h
    by_cases hd : p d = true
    · rw [if_pos hd] at h; exact ih h
    · rw [if_neg hd] at h
      injection h with h1 h2
      subst h1
      simpa using hd

theorem pyRstrip_head (s : Chars) (c : Char) (r : Chars) (h : pyRstrip s = c :: r) :
    ∃ t, s = c :: t := by
  cases s with
  | nil => exact absurd h (by simp [pyRstrip])
  | cons d t =>
    unfold pyRstrip at h
    cases hr : pyRstrip t with
    | nil =>
      rw [hr] at h
      simp only [] at h
      by_cases hd : isPySpace d = true
      · rw [if_pos hd] at h; exact absurd h (by simp)
      · rw [if_neg hd] at h
        injection h with h1 h2
        subst h1
        exact ⟨t, rfl⟩
    | cons x xs =>
      rw [hr] at h
      simp only [] at h
      injection h with h1 h2
      subst h1
      exact ⟨t, rfl⟩

theorem pyStrip_head (s : Chars) (c : Char) (r : Chars) (h : pyStrip s = c :: r) :
    isPySpace c = false := by
  unfold pyStrip at h
  obtain ⟨t, ht⟩ := pyRstrip_head _ _ _ h
  exact dropWhile_head_not isPySpace s c t ht


theorem splitlinesAux_head (r : Chars) :
    ∀ acc, acc ≠ [] → ∃ t ls, splitlinesAux r acc = (acc.reverse ++ t) :: ls := by
  induction r with
  | nil =>
    intro acc hacc
    refine ⟨[], [], ?_⟩
    unfold splitlinesAux
    rw [if_neg (by simpa [List.isEmpty_iff] using hacc)]
    simp
  | cons c r ih =>
    intro acc hacc
    unfold splitlinesAux
    by_cases hc : isLineBreak c = true
    · rw [if_pos hc]
      cases r with
      | nil => exact ⟨[], [], by simp⟩
      | cons r1 rs =>
        by_cases hcr : c = '\r' ∧ r1 = '\n'
        · exact ⟨[], splitlinesAux rs [], by simp [hcr]⟩
        · exact ⟨[], splitlinesAux (r1 :: rs) [], by simp [hcr]⟩
    · rw [if_neg hc]
      obtain ⟨t, ls, ht⟩ := ih (c :: acc) (by simp)
      refine ⟨[c] ++ t, ls, ?_⟩
      rw [ht]
      simp

theorem pySplitlines_head (c : Char) (r : Chars) (hc : isLineBreak c = false) :
    ∃ t ls, pySplitlines (c :: r) = (c :: t) :: ls := by
  unfold pySplitlines splitlinesAux
  rw [if_neg (by simp [hc])]
  obtain ⟨t, ls, ht⟩ := splitlinesAux_head r [c] (by simp)
  exact ⟨t, ls, by rw [ht]; simp⟩

theorem pyFindAux_eq_neg (hay sub : Chars) (i : Nat)
    (h : ∀ j, (sub.isPrefixOf (hay.drop j)) = false) :
    pyFindAux hay sub i = -1 := by
  induction hay generalizing i with
  | nil =>
    have h0 := h 0
    rw [List.drop_zero] at h0
    unfold pyFindAux
    rw [if_neg (by simp [h0])]
  | cons c t ih =>
    have h0 := h 0
    rw [List.drop_zero] at h0
    unfold pyFindAux
    rw [if_neg (by simp [h0])]
    exact ih (i + 1) (fun j => h (j + 1))

theorem pyFind_eq_neg (hay sub : Chars)
    (h : ∀ j, (sub.isPrefixOf (hay.drop j)) = false) : pyFind hay sub = -1 :=
  pyFindAux_eq_neg hay sub 0 h

theorem isPrefixOf_drop_false_of_lt (hay : Chars) (c : Char) (sub : Chars)
    (h : ∀ j < hay.length, (((c :: sub).isPrefixOf (hay.drop j))) = false) :
    ∀ j, (((c :: sub).isPrefixOf (hay.drop j))) = false := by
  intro j
  by_cases hj : j < hay.length
  · exact h j hj
  · rw [List.drop_eq_nil_of_le (by omega)]
    rfl

theorem isPrefixOf_of_append_isPrefixOf (a b l : Chars)
    (h : ((a ++ b).isPrefixOf l) = true) : (a.isPrefixOf l) = true := by
  induction a generalizing l with
  | nil => simp
  | cons c t ih =>
    cases l with
    | nil => exact absurd h (by simp)
    | cons d m =>
      rw [List.cons_append, List.isPrefixOf_cons₂] at h
      rw [List.isPrefixOf_cons₂]
      simp only [Bool.and_eq_true] at h ⊢
      exact ⟨h.1, ih _ h.2⟩

theorem pySlice_natCast_length (l : Chars) (k : Nat) :
    pySlice l (k : Int) ((l.length : Nat) : Int) = l.drop k := by
  simp only [pySlice, clampIdx]
  rw [if_neg (by omega), if_neg (by omega)]
  rw [show ((k : Int)).toNat = k from rfl,
    show (((l.length : Nat) : Int)).toNat = l.length from rfl, min_self]
  by_cases hk : k ≤ l.length
  · rw [min_eq_left hk, ← List.length_drop, List.take_length]
  · rw [min_eq_right (by omega), Nat.sub_self, List.take_zero,
      List.drop_eq_nil_of_le (by omega)]

/-! ### Claim theorems -/

/-- C1: Emission merge rule — given the two pending sorted lists, the
emitter outputs the next type entry exactly when its numeric type is less
than or equal to the numeric type of the next pending code entry,
otherwise the next code entry; when one list is exhausted the remainder
of the other is emitted in order. -/
theorem c1_emission_merge_rule (t : Int × Chars) (ts : List (Int × Chars))
    (c : Int × Int × Chars) (cs : List (Int × Int × Chars)) :
    mergeEmit (t :: ts) (c :: cs) =
      (if t.1 ≤ c.1 then typeAssignLine t :: mergeEmit ts (c :: cs)
       else codeAssignLine c :: mergeEmit (t :: ts) cs) ∧
    mergeEmit ts [] = ts.map typeAssignLine ∧
    mergeEmit [] cs = cs.map codeAssignLine :=
  ⟨mergeEmit_cons_cons t ts c cs, mergeEmit_nil_codes ts, mergeEmit_nil_types cs⟩

/-- C2: on a probe whose scraped numeric type (2) differs from the
enclosing declaration's resolved value (1), the run dies before writing
anything — but with a `TypeError` raised while evaluating
`"invalid type %d for %s (expected %d)" % (t, codeName, curTypeName,)`
(the third conversion applies `%d` to the *name* string), not with a
`ValueError` naming both values as the spec claims. -/
theorem c2_mismatch_dies_with_format_typeerror :
    run listingMis (("x").toList) rawHelpMis =
      .error (.typeError (("%d format: a number is required, not str").toList)) ∧
    mismatchMessage (.int 2) (.str (("b").toList)) (.str (("a").toList)) =
      .error (.typeError (("%d format: a number is required, not str").toList)) := by
  exact ⟨by decide, rfl⟩

/-- C5 counterexample: the claim says a non-indented line matching
`<word-chars-and-hyphens> (<text>)` yields the first group as name and
the parenthesized text as alias; `A (x)` has that shape (word characters
include uppercase letters), yet the parser treats the whole line as the
canonical name with no alias, because `ALIAS_RE` only accepts `[a-z-]`. -/
theorem c5_counterexample :
    declParse (("A (x)").toList) = ((("A (x)").toList), none) ∧
    specWordAliasMatch (("A (x)").toList) = some ((("A").toList), (("x").toList)) := by
  exact ⟨by decide, by decide⟩

/-- C5 (amended): for every line (newline-free, as all split lines are),
the parser yields `(n, some a)` exactly when the line is
`n ++ " (" ++ a ++ ")"` with `n` a nonempty run of lowercase letters and
hyphens (not arbitrary word characters) and `a` newline-free; every other
line yields the whole line as the canonical name with no alias. -/
theorem c5_amended_alias_pattern (line n a : Chars) (h : '\n' ∉ line) :
    (declParse line = (n, some a) ↔
      (line = n ++ ' ' :: '(' :: (a ++ [')']) ∧ n ≠ [] ∧
        n.all isNameChar = true ∧ '\n' ∉ a)) ∧
    (aliasMatch line = none → declParse line = (line, none)) := by
  constructor
  · have hiff := aliasCore_eq_some line n a
    rw [← aliasMatch_of_no_newline line h] at hiff
    rw [← hiff]
    unfold declParse
    cases ham : aliasMatch line with
    | none => simp
    | some p =>
      obtain ⟨pn, pa⟩ := p
      simp
  · intro hm
    unfold declParse
    rw [hm]

/-- Witness for C5 (amended) at the line `ab (cd)`. -/
theorem c5_amended_alias_pattern_witness :
    declParse (("ab (cd)").toList) = ((("ab").toList), some (("cd").toList)) :=
  (c5_amended_alias_pattern (("ab (cd)").toList) (("ab").toList) (("cd").toList)
    (by decide)).1.mpr (by decide)

/-- C7: round-trip of the alias matcher — whenever a line matches and
yields `(name, alias)`, re-formatting them as `name ++ " (" ++ alias ++ ")"`
and re-matching yields the same pair. -/
theorem c7_alias_roundtrip (line n a : Chars) (h : aliasMatch line = some (n, a)) :
    aliasMatch (n ++ (" (").toList ++ a ++ (")").toList) = some (n, a) := by
  obtain ⟨hne, hall, hnl⟩ := aliasMatch_eq_some_facts line n a h
  have hshape : n ++ (" (").toList ++ a ++ ((")").toList) =
      n ++ ' ' :: '(' :: (a ++ [')']) := by simp
  rw [hshape]
  have hn_nl : '\n' ∉ n := by
    intro hmem
    have := List.all_eq_true.1 hall _ hmem
    exact absurd this (by decide)
  have hnl2 : '\n' ∉ n ++ ' ' :: '(' :: (a ++ [')']) := by
    intro hmem
    rcases List.mem_append.1 hmem with hx | hx
    · exact hn_nl hx
    · rcases List.mem_cons.1 hx with hx | hx
      · exact absurd hx (by decide)
      · rcases List.mem_cons.1 hx with hx | hx
        · exact absurd hx (by decide)
        · rcases List.mem_append.1 hx with hx | hx
          · exact hnl hx
          · exact absurd hx (by decide)
  rw [aliasMatch_of_no_newline _ hnl2]
  exact (aliasCore_eq_some _ n a).2 ⟨rfl, hne, hall, hnl⟩

/-- Witness for C7 at the line `ab (cd)`. -/
theorem c7_alias_roundtrip_witness :
    aliasMatch ((("ab").toList) ++ (" (").toList ++ (("cd").toList) ++ ((")").toList)) =
      some ((("ab").toList), (("cd").toList)) :=
  c7_alias_roundtrip (("ab (cd)").toList) (("ab").toList) (("cd").toList) (by decide)

/-- C3 counterexample: on the help text whose body is
`a\n b \n c\n`, the indented line ` b ` (not last, so the whole-buffer
strip leaves it alone) is recorded under the code name `b ` — only the
*leading* whitespace is removed by `line.lstrip()`, the trailing space
survives — while trimming the surrounding whitespace as the claim states
would give `b`. -/
theorem c3_counterexample :
    run listingA (("x").toList) rawHelpTrail =
      .ok [(("# icmp.py").toList), (("# generated by x").toList),
        (("ICMP_TYPE = \x7b\x7d").toList), (("ICMP_TYPE_CODE = \x7b\x7d").toList),
        (("ICMP_TYPE[\"a\"] = 8").toList),
        (("ICMP_TYPE_CODE[\"b \"] = (8, 0,)").toList),
        (("ICMP_TYPE_CODE[\"c\"] = (8, 0,)").toList)] ∧
    pyLstrip ((" b ").toList) = ("b ").toList ∧
    pyStrip ((" b ").toList) = ("b").toList ∧
    (("b ").toList : Chars) ≠ ("b").toList := by
  exact ⟨by decide, by decide, by decide, by decide⟩

/-- C3 (amended): on every run of the parse/resolve loop that finishes
without an exception, the logged `(codeName, typeName)` attributions are
exactly: each line beginning with a space character, with its *leading*
whitespace removed (trailing whitespace preserved), attributed to the
canonical name of the most recently seen line not beginning with a
space. -/
theorem c3_amended_attribution (listing : Chars → Chars) (lines : List Chars)
    (st' : LoopState) (h : runLoop listing lines initState = .ok st') :
    codeAttrib st'.log = specAttrib lines none := by
  have hres := runLoop_codeAttrib listing lines initState st' h
  simpa [initState, codeAttrib] using hres

/-- Witness for C3 (amended) on the lines `a` and ` b`. -/
theorem c3_amended_attribution_witness :
    codeAttrib (LoopState.mk [((("a").toList), 8)] [((("b").toList), (8, 0))]
      (some (("a").toList)) (some 8)
      [.foundType (("a").toList), .foundTypeVal 8 (("a").toList),
       .foundCode (("b").toList) (("a").toList),
       .foundTypeCode 8 0 (("b").toList)]).log =
    specAttrib [(("a").toList), ((" b").toList)] none :=
  c3_amended_attribution listingA [(("a").toList), ((" b").toList)] _ (by decide)

/-- C4 counterexample: on a help text whose sliced body ` b\n` begins
with an indented line, the run does not raise `OrphanCodeError` — the
whole-buffer `strip()` removes the indentation and `b` is processed as a
type declaration, so the run succeeds and emits an `ICMP_TYPE` entry for
it. -/
theorem c4_counterexample :
    startsWithSpace (slicedBody rawHelpIndent) = true ∧
    run listingT3 (("x").toList) rawHelpIndent =
      .ok [(("# icmp.py").toList), (("# generated by x").toList),
        (("ICMP_TYPE = \x7b\x7d").toList), (("ICMP_TYPE_CODE = \x7b\x7d").toList),
        (("ICMP_TYPE[\"b\"] = 3").toList)] := by
  exact ⟨by decide, by decide⟩

/-- C4 (amended): the orphan-code `ValueError` of line 99 is unreachable
through the pipeline: `buf.strip()` removes any leading whitespace of the
sliced body before it is split into lines, so the first processed line
never begins with a space and every later indented line finds
`curTypeName` set; no input makes the run fail with the orphan error. -/
theorem c4_amended_orphan_unreachable (listing : Chars → Chars) (argv0 rawHelp : Chars) :
    isOrphanError (run listing argv0 rawHelp) = false := by
  unfold run runBody
  cases hloop : runLoop listing (linesOf (slicedBody rawHelp)) initState with
  | ok st => rfl
  | error e =>
    show errIsOrphan e = false
    unfold linesOf at hloop
    cases hstrip : pyStrip (slicedBody rawHelp) with
    | nil =>
      rw [hstrip] at hloop
      exact absurd hloop (by simp [pySplitlines, splitlinesAux, runLoop])
    | cons c r =>
      rw [hstrip] at hloop
      have hcns : isPySpace c = false := pyStrip_head _ _ _ hstrip
      have hcnb : isLineBreak c = false := by
        unfold isPySpace at hcns
        cases hb : isLineBreak c
        · rfl
        · rw [hb] at hcns
          simp at hcns
      obtain ⟨t, ls2, hsplit⟩ := pySplitlines_head c r hcnb
      rw [hsplit] at hloop
      have hhead : startsWithSpace (c :: t) = false := by
        unfold startsWithSpace
        cases hb : (c == ' ')
        · exact hb
        · exfalso
          have hce : c = ' ' := by simpa using hb
          rw [hce] at hcns
          exact absurd hcns (by decide)
      exact runLoop_error_orphan_head listing _ _ _ _ hhead hloop

/-- C8 counterexample: a probe environment whose rule listing
`abcdefgh42\n` never contains the `icmptype ` marker, yet the run does
not abort — the fallback slice `buf[8:-1]` happens to be the decimal
literal `42`, `int` succeeds, and a full table is emitted. -/
theorem c8_counterexample :
    run listingNoMarker (("x").toList) rawHelpOneType =
      .ok [(("# icmp.py").toList), (("# generated by x").toList),
        (("ICMP_TYPE = \x7b\x7d").toList), (("ICMP_TYPE_CODE = \x7b\x7d").toList),
        (("ICMP_TYPE[\"a\"] = 42").toList)] ∧
    (∀ j < (listingNoMarker (("a").toList)).length,
      ((("icmptype ").toList).isPrefixOf ((listingNoMarker (("a").toList)).drop j)) = false) := by
  exact ⟨by decide, by decide⟩

/-- C8 (amended): when the rule-listing output contains no `icmptype `
marker, the type probe does not necessarily abort: `find` returns `-1`
and the scrape silently degenerates to the fallback slice
`buf[8 : buf.find("\n", -1)]`; the probe fails exactly when that slice is
not a valid integer literal. -/
theorem c8_amended_fallback (buf : Chars)
    (h : ∀ j < buf.length, ((("icmptype ").toList).isPrefixOf (buf.drop j)) = false) :
    parseListingType buf = pyInt (pySlice buf 8 (pyFindFrom buf (("\n").toList) (-1))) := by
  have hm : (("icmptype ").toList : Chars) = 'i' :: ("cmptype ").toList := by decide
  have hall : ∀ j, ((("icmptype ").toList).isPrefixOf (buf.drop j)) = false := by
    intro j
    by_cases hj : j < buf.length
    · exact h j hj
    · rw [List.drop_eq_nil_of_le (by omega), hm]
      rfl
  have hfind : pyFind buf (("icmptype ").toList) = -1 := pyFind_eq_neg _ _ hall
  unfold parseListingType listingTypeSlice
  rw [hfind]
  norm_num

/-- Witness for C8 (amended) on the marker-free listing `abcdefgh42\n`. -/
theorem c8_amended_fallback_witness :
    parseListingType (("abcdefgh42\n").toList) =
      pyInt (pySlice (("abcdefgh42\n").toList) 8
        (pyFindFrom (("abcdefgh42\n").toList) (("\n").toList) (-1))) :=
  c8_amended_fallback (("abcdefgh42\n").toList) (by decide)

/-- C10: when the raw help text does not contain `Valid ICMP Types:` at
all, the marker search (for the marker plus newline) returns the
sentinel `-1`, the slice `buf[p+18:]` starts at character 17, and the
program proceeds to parse that suffix as if it were the types section —
no failure at the slicing step. -/
theorem c10_missing_marker_slice (listing : Chars → Chars) (argv0 rawHelp : Chars)
    (h : ∀ j < rawHelp.length,
      ((("Valid ICMP Types:").toList).isPrefixOf (rawHelp.drop j)) = false) :
    pyFind rawHelp (("Valid ICMP Types:\n").toList) = -1 ∧
    slicedBody rawHelp = rawHelp.drop 17 ∧
    run listing argv0 rawHelp = runBody listing argv0 (rawHelp.drop 17) := by
  have hm : (("Valid ICMP Types:").toList : Chars) =
      'V' :: ("alid ICMP Types:").toList := by decide
  have hall : ∀ j, ((("Valid ICMP Types:").toList).isPrefixOf (rawHelp.drop j)) = false := by
    intro j
    by_cases hj : j < rawHelp.length
    · exact h j hj
    · rw [List.drop_eq_nil_of_le (by omega), hm]
      rfl
  have hm18 : (("Valid ICMP Types:\n").toList : Chars) =
      ("Valid ICMP Types:").toList ++ ['\n'] := by decide
  have hall18 : ∀ j, ((("Valid ICMP Types:\n").toList).isPrefixOf (rawHelp.drop j)) = false := by
    intro j
    cases hb : ((("Valid ICMP Types:\n").toList).isPrefixOf (rawHelp.drop j)) with
    | false => rfl
    | true =>
      exfalso
      rw [hm18] at hb
      have := isPrefixOf_of_append_isPrefixOf _ _ _ hb
      rw [hall j] at this
      exact absurd this (by simp)
  have hfind : pyFind rawHelp (("Valid ICMP Types:\n").toList) = -1 :=
    pyFind_eq_neg _ _ hall18
  have hsliced : slicedBody rawHelp = rawHelp.drop 17 := by
    unfold slicedBody
    rw [hfind]
    show pySlice rawHelp (-1 + 18) (Int.ofNat rawHelp.length) = rawHelp.drop 17
    have h17 : ((-1 : Int) + 18) = ((17 : Nat) : Int) := by decide
    rw [h17]
    exact pySlice_natCast_length rawHelp 17
  refine ⟨hfind, hsliced, ?_⟩
  unfold run
  rw [hsliced]

/-- Witness for C10 on the marker-free help text `hello world`. -/
theorem c10_missing_marker_slice_witness :
    slicedBody (("hello world").toList) = (("hello world").toList).drop 17 :=
  (c10_missing_marker_slice listingT3 (("x").toList) (("hello world").toList)
    (by decide)).2.1

theorem isTypeAssign_hash (rest : Chars) : isTypeAssign ('#' :: rest) = false := by
  unfold isTypeAssign
  rw [show (("ICMP_TYPE[\"").toList : Chars) = 'I' :: ("CMP_TYPE[\"").toList from by decide,
    List.isPrefixOf_cons₂]
  simp

theorem isCodeAssign_hash (rest : Chars) : isCodeAssign ('#' :: rest) = false := by
  unfold isCodeAssign
  rw [show (("ICMP_TYPE_CODE[\"").toList : Chars) = 'I' :: ("CMP_TYPE_CODE[\"").toList from by
    decide, List.isPrefixOf_cons₂]
  simp

theorem countP_headerLines_type (argv0 : Chars) :
    (headerLines argv0).countP isTypeAssign = 0 := by
  unfold headerLines
  rw [List.countP_cons_of_neg _ _ (by decide),
    List.countP_cons_of_neg _ _ (by simp [isTypeAssign_hash]),
    List.countP_cons_of_neg _ _ (by decide),
    List.countP_cons_of_neg _ _ (by decide)]
  rfl

theorem countP_headerLines_code (argv0 : Chars) :
    (headerLines argv0).countP isCodeAssign = 0 := by
  unfold headerLines
  rw [List.countP_cons_of_neg _ _ (by decide),
    List.countP_cons_of_neg _ _ (by simp [isCodeAssign_hash]),
    List.countP_cons_of_neg _ _ (by decide),
    List.countP_cons_of_neg _ _ (by decide)]
  rfl

theorem countP_emitFromState_type (st : LoopState) :
    (emitFromState st).countP isTypeAssign = st.typeByName.length := by
  unfold emitFromState
  rw [countP_mergeEmit_type, length_pySort, List.length_map]

theorem countP_emitFromState_code (st : LoopState) :
    (emitFromState st).countP isCodeAssign = st.codeTypeByName.length := by
  unfold emitFromState
  rw [countP_mergeEmit_code, length_pySort, List.length_map]

/-- C6 counterexample: when the alias `b` of the declaration `a (b)`
collides with the later type declaration `b`, the dictionary assignment
overwrites the alias entry, so only 2 `ICMP_TYPE` lines are emitted while
3 type names (including the alias) were resolved — an entry is dropped,
contrary to the claim, which covers exactly this collision case. -/
theorem c6_counterexample :
    run listingCollide (("x").toList) rawHelpCollide =
      .ok [(("# icmp.py").toList), (("# generated by x").toList),
        (("ICMP_TYPE = \x7b\x7d").toList), (("ICMP_TYPE_CODE = \x7b\x7d").toList),
        (("ICMP_TYPE[\"a\"] = 1").toList), (("ICMP_TYPE[\"b\"] = 2").toList)] ∧
    ([(("# icmp.py").toList), (("# generated by x").toList),
      (("ICMP_TYPE = \x7b\x7d").toList), (("ICMP_TYPE_CODE = \x7b\x7d").toList),
      (("ICMP_TYPE[\"a\"] = 1").toList), (("ICMP_TYPE[\"b\"] = 2").toList)].countP
        isTypeAssign) = 2 ∧
    (specTypeNames (linesOf (slicedBody rawHelpCollide))).length = 3 := by
  exact ⟨by decide, by decide, by decide⟩

/-- C6 (amended): on every successful run whose resolved type names
(canonical names plus aliases) are pairwise distinct and whose resolved
code names are pairwise distinct, the count of emitted `ICMP_TYPE` lines
equals the number of resolved type names including aliases, and the count
of emitted `ICMP_TYPE_CODE` lines equals the number of resolved code
names; with duplicate names the dictionaries deduplicate, and the counts
equal the numbers of distinct names. -/
theorem c6_amended_counts (listing : Chars → Chars) (argv0 rawHelp : Chars)
    (out : List Chars) (h : run listing argv0 rawHelp = .ok out)
    (hT : (specTypeNames (linesOf (slicedBody rawHelp))).Nodup)
    (hC : (specCodeNames (linesOf (slicedBody rawHelp))).Nodup) :
    out.countP isTypeAssign = (specTypeNames (linesOf (slicedBody rawHelp))).length ∧
    out.countP isCodeAssign = (specCodeNames (linesOf (slicedBody rawHelp))).length := by
  unfold run runBody at h
  cases hloop : runLoop listing (linesOf (slicedBody rawHelp)) initState with
  | error e => rw [hloop] at h; exact absurd h (by simp)
  | ok st =>
    rw [hloop] at h
    simp only [] at h
    injection h with h'
    subst h'
    obtain ⟨hk1, hk2⟩ := runLoop_keys listing _ initState st hloop
    have hT' : st.typeByName.map Prod.fst = specTypeNames (linesOf (slicedBody rawHelp)) := by
      rw [hk1]
      show foldInsert ([] : List Chars) _ = _
      rw [foldInsert_of_disjoint _ _ (fun n _ hmem => absurd hmem (List.not_mem_nil n)) hT]
      simp
    have hC' : st.codeTypeByName.map Prod.fst = specCodeNames (linesOf (slicedBody rawHelp)) := by
      rw [hk2]
      show foldInsert ([] : List Chars) _ = _
      rw [foldInsert_of_disjoint _ _ (fun n _ hmem => absurd hmem (List.not_mem_nil n)) hC]
      simp
    have hlen1 : st.typeByName.length = (specTypeNames (linesOf (slicedBody rawHelp))).length := by
      rw [← hT', List.length_map]
    have hlen2 : st.codeTypeByName.length =
        (specCodeNames (linesOf (slicedBody rawHelp))).length := by
      rw [← hC', List.length_map]
    constructor
    · rw [List.countP_append, countP_headerLines_type, countP_emitFromState_type, hlen1,
        Nat.zero_add]
    · rw [List.countP_append, countP_headerLines_code, countP_emitFromState_code, hlen2,
        Nat.zero_add]

/-- Witness for C6 (amended) on the collision-free help text with one
type `a` and one code `b`. -/
theorem c6_amended_counts_witness :
    ([(("# icmp.py").toList), (("# generated by x").toList),
      (("ICMP_TYPE = \x7b\x7d").toList), (("ICMP_TYPE_CODE = \x7b\x7d").toList),
      (("ICMP_TYPE[\"a\"] = 8").toList),
      (("ICMP_TYPE_CODE[\"b\"] = (8, 0,)").toList)].countP isTypeAssign) =
      (specTypeNames (linesOf (slicedBody rawHelpMis))).length :=
  (c6_amended_counts listingA (("x").toList) rawHelpMis _ (by decide) (by decide)
    (by decide)).1

/-- C9: on every successful run the output starts with exactly the four
header lines `# icmp.py`, `# generated by <argv0>`, `ICMP_TYPE = {}` and
`ICMP_TYPE_CODE = {}`, and every following line is an assignment line of
one of the two forms `ICMP_TYPE["<name>"] = <int>` or
`ICMP_TYPE_CODE["<name>"] = (<int>, <int>,)`. -/
theorem c9_output_shape (listing : Chars → Chars) (argv0 rawHelp : Chars)
    (out : List Chars) (h : run listing argv0 rawHelp = .ok out) :
    out.take 4 = headerLines argv0 ∧
    ∀ l ∈ out.drop 4,
      (∃ v n, l = typeAssignLine (v, n)) ∨
      (∃ tv cv n, l = codeAssignLine (tv, cv, n)) := by
  unfold run runBody at h
  cases hloop : runLoop listing (linesOf (slicedBody rawHelp)) initState with
  | error e => rw [hloop] at h; exact absurd h (by simp)
  | ok st =>
    rw [hloop] at h
    simp only [] at h
    injection h with h'
    subst h'
    constructor
    · unfold headerLines
      simp
    · intro l hl
      have hdrop : (headerLines argv0 ++ emitFromState st).drop 4 = emitFromState st := by
        unfold headerLines
        simp
      rw [hdrop] at hl
      unfold emitFromState at hl
      rcases mem_mergeEmit _ _ _ hl with ⟨tp, _, he⟩ | ⟨cp, _, he⟩
      · exact Or.inl ⟨tp.1, tp.2, by rw [he]⟩
      · exact Or.inr ⟨cp.1, cp.2.1, cp.2.2, by rw [he]⟩

/-- Witness for C9 on the one-declaration help text. -/
theorem c9_output_shape_witness :
    ([(("# icmp.py").toList), (("# generated by x").toList),
      (("ICMP_TYPE = \x7b\x7d").toList), (("ICMP_TYPE_CODE = \x7b\x7d").toList),
      (("ICMP_TYPE[\"b\"] = 3").toList)].take 4) = headerLines (("x").toList) :=
  (c9_output_shape listingT3 (("x").toList) rawHelpIndent _ (by decide)).1
